import Mathlib

/-!
Shallow embedding of the clinical-notes validation pipeline
(`src/utils/semanticAnalysis.ts`, Groq iteration, plus the module-level
initialization guards of the embedding/classification model files).

JavaScript strings are modelled as Lean `String` (a list of characters);
all string primitives used by the source (`toLowerCase`, `includes`,
`split`, `trim`, `substring`, `startsWith`) are defined below on the
character-list representation so that every definition is executable and
kernel-reducible.
-/

/-! ## JavaScript string primitives -/

/-- `toLowerCase` on one character (ASCII case fold, as in the note texts). -/
def jsLowerChar (c : Char) : Char := c.toLower

/-- `s.toLowerCase()`. -/
def lcStr (s : String) : String := ⟨s.data.map jsLowerChar⟩

/-- Substring occurrence test on character lists. -/
def listIsSub (needle hay : List Char) : Bool :=
  match hay with
  | [] => needle.isEmpty
  | _ :: t => needle.isPrefixOf hay || listIsSub needle t

/-- `hay.includes(needle)`: substring test. -/
def strContains (hay needle : String) : Bool := listIsSub needle.data hay.data

/-- `s.startsWith(p)`. -/
def strStartsWith (s p : String) : Bool := p.data.isPrefixOf s.data

/-- `s.substring(n)`: drop the first `n` characters. -/
def strDrop (n : Nat) (s : String) : String := ⟨s.data.drop n⟩

/-- JS whitespace characters relevant to `trim` and `\s` (the note texts
only ever contain the ASCII ones). -/
def jsWhitespace (c : Char) : Bool :=
  c = ' ' || c = '\t' || c = '\n' || c = '\r' || c = '\x0b' || c = '\x0c'

/-- `s.trim()`. -/
def jsTrim (s : String) : String :=
  ⟨((s.data.dropWhile jsWhitespace).reverse.dropWhile jsWhitespace).reverse⟩

/-- Empty-string test (JS falsiness of a string). -/
def strEmpty (s : String) : Bool := s.data.isEmpty

/-- Core splitter: cut a character list at every character satisfying `p`
(the separators are consumed).  Mirrors JS `String.prototype.split`:
`split` of the empty string is `[""]`, adjacent separators produce empty
fragments. -/
def splitBy (p : Char → Bool) : List Char → List (List Char)
  | [] => [[]]
  | c :: cs =>
    if p c then [] :: splitBy p cs
    else
      match splitBy p cs with
      | [] => [[c]]
      | l :: ls => (c :: l) :: ls

/-- `s.split(sep)` for a one-character separator. -/
def jsSplitChar (sep : Char) (s : String) : List String :=
  (splitBy (fun c => c == sep) s.data).map String.mk

/-! ## The Pattern Catalog (`medicalContexts` of the Groq iteration) -/

/-- SOAP section tag. -/
inductive Tag
  | S
  | O
  | A
  | P
deriving DecidableEq

/-- One Pattern-Catalog entry: trigger patterns, context clues and the
owning SOAP section. -/
structure ElementContext where
  patterns : List String
  contextClues : List String
  soapSection : Tag
deriving DecidableEq

def chiefComplaintCtx : ElementContext :=
  { patterns := ["presents with", "complains of", "came in for", "reports",
                 "experiencing", "CC:"]
    contextClues := ["symptoms", "since", "started", "ago"]
    soapSection := Tag.S }

def hpiCtx : ElementContext :=
  { patterns := ["started", "began", "developed", "progression", "course"]
    contextClues := ["days ago", "weeks ago", "gradually", "suddenly", "previously"]
    soapSection := Tag.S }

def pmhCtx : ElementContext :=
  { patterns := ["history of", "diagnosed with", "previous", "chronic", "known"]
    contextClues := ["condition", "surgery", "treatment", "managed with"]
    soapSection := Tag.S }

def currentMedicationsCtx : ElementContext :=
  { patterns := ["taking", "prescribed", "medications include", "daily",
                 "current medications"]
    contextClues := ["mg", "dose", "tablet", "capsule"]
    soapSection := Tag.S }

def allergiesCtx : ElementContext :=
  { patterns := ["allergic to", "allergies", "reactions", "sensitivity"]
    contextClues := ["medication allergy", "food allergy", "NKDA", "NKFDA",
                     "intolerance"]
    soapSection := Tag.S }

def physicalExamCtx : ElementContext :=
  { patterns := ["examination reveals", "observed", "auscultation", "palpation"]
    contextClues := ["normal", "present", "absent", "bilateral"]
    soapSection := Tag.O }

def vitalSignsCtx : ElementContext :=
  { patterns := ["vitals", "vital signs", "VS:", "BP", "HR", "RR", "T:",
                 "temp", "temperature", "pulse ox"]
    contextClues := ["mmHg", "bpm", "°C", "°F", "%", "oxygen saturation"]
    soapSection := Tag.O }

def labResultsCtx : ElementContext :=
  { patterns := ["lab", "laboratory", "results", "test", "value"]
    contextClues := ["elevated", "normal", "abnormal", "within range", "high", "low"]
    soapSection := Tag.O }

def diagnosisCtx : ElementContext :=
  { patterns := ["assessment:", "impression:", "diagnosis:", "diagnoses:",
                 "A:", "dx:", "assessment and plan:"]
    contextClues := ["likely", "consistent with", "rule out", "differential",
                     "probable"]
    soapSection := Tag.A }

def treatmentPlanCtx : ElementContext :=
  { patterns := ["plan:", "P:", "will", "prescribe", "recommended", "advised",
                 "treatment:"]
    contextClues := ["follow up", "refer", "mg", "daily", "continue", "start",
                     "stop"]
    soapSection := Tag.P }

def followUpCtx : ElementContext :=
  { patterns := ["follow up", "return", "schedule", "appointment", "check back"]
    contextClues := ["weeks", "days", "months", "if symptoms", "as needed"]
    soapSection := Tag.P }

/-- The `medicalContexts` table of the Groq iteration, keyed by element
name (the element-specific vital-sign regex of that entry is carried separately
by `scanVitals` below). -/
def medicalContexts : List (String × ElementContext) :=
  [("Chief complaint", chiefComplaintCtx),
   ("History of present illness", hpiCtx),
   ("Past medical history", pmhCtx),
   ("Current medications", currentMedicationsCtx),
   ("Allergies", allergiesCtx),
   ("Physical examination findings", physicalExamCtx),
   ("Vital signs", vitalSignsCtx),
   ("Lab results", labResultsCtx),
   ("Diagnosis", diagnosisCtx),
   ("Treatment plan", treatmentPlanCtx),
   ("Follow-up instructions", followUpCtx)]

/-- `medicalContexts[name]` lookup; `none` models JS `undefined`. -/
def lookupContext (name : String) : Option ElementContext :=
  (medicalContexts.find? (fun p => p.1 == name)).map (fun p => p.2)

/-! ## Keyword Matcher (`containsKeywords`, identical in `part_000` and the
Groq iteration) -/

/-- `element.toLowerCase().split(" ")`. -/
def keywordsOf (element : String) : List String := jsSplitChar ' ' (lcStr element)

/-- Number of keywords of `element` occurring as substrings of the
case-folded `text`. -/
def keywordMatchCount (text element : String) : Nat :=
  ((keywordsOf element).filter (fun word => strContains (lcStr text) word)).length

/-- `containsKeywords(text, element)`: at least `Math.ceil(k / 2)` of the
`k` keywords must occur.  For natural `k`, `Math.ceil(k / 2)` is exactly
`(k + 1) / 2` (halving a 53-bit integer is exact in doubles). -/
def containsKeywords (text element : String) : Bool :=
  decide (((keywordsOf element).length + 1) / 2 ≤ keywordMatchCount text element)

/-! ## Contextual Matcher (`findContextualMatch`) -/

/-- The local `hasPattern` of `findContextualMatch`: some trigger pattern
is a case-insensitive substring of `text`. -/
def hasPatternIn (ctx : ElementContext) (text : String) : Bool :=
  ctx.patterns.any (fun pat => strContains (lcStr text) (lcStr pat))

/-- The local `hasContextClues` of `findContextualMatch`. -/
def hasClueIn (ctx : ElementContext) (text : String) : Bool :=
  ctx.contextClues.any (fun clue => strContains (lcStr text) (lcStr clue))

/-- The vital-signs special case of `findContextualMatch`:
`/\d+/.test(textLower)` and one of the literal substrings
`"bp" | "hr" | "temp" | "rr"`. -/
def vitalsNumericRule (text : String) : Bool :=
  (lcStr text).data.any Char.isDigit &&
    (strContains (lcStr text) "bp" || strContains (lcStr text) "hr" ||
     strContains (lcStr text) "temp" || strContains (lcStr text) "rr")

/-- `findContextualMatch(text, section)`. -/
def findContextualMatch (text sect : String) : Bool :=
  match lookupContext sect with
  | none => false
  | some context =>
    if sect == "Vital signs" then
      vitalsNumericRule text || (hasPatternIn context text && hasClueIn context text)
    else
      hasPatternIn context text ||
        (hasClueIn context text && decide ((lcStr text).length > 50))

/-! ## SOAP Section Splitter (`identifySoapSections` of the Groq iteration) -/

/-- The four accumulated section buffers. -/
structure SoapSections where
  S : String
  O : String
  A : String
  P : String
deriving DecidableEq

def emptySections : SoapSections := ⟨"", "", "", ""⟩

/-- Read the buffer of one tag (JS `sections[tag]`). -/
def SoapSections.get (secs : SoapSections) : Tag → String
  | Tag.S => secs.S
  | Tag.O => secs.O
  | Tag.A => secs.A
  | Tag.P => secs.P

/-- Append to the buffer of one tag (JS `sections[tag] += s`). -/
def SoapSections.app (secs : SoapSections) (t : Tag) (s : String) : SoapSections :=
  match t with
  | Tag.S => { secs with S := secs.S ++ s }
  | Tag.O => { secs with O := secs.O ++ s }
  | Tag.A => { secs with A := secs.A ++ s }
  | Tag.P => { secs with P := secs.P ++ s }

/-- The header regexes `/^x:?/im` match iff some regex-level line of the
tested string starts with `x` (the `:?` is optional, so it never
constrains).  With the `m` flag, `^` also anchors after the line
terminators `\r`, `\u2028`, `\u2029` (the note was already split at
`\n`). -/
def reLineSegs (line : String) : List String :=
  (splitBy (fun c => c == '\r' || c == '\u2028' || c == '\u2029') line.data).map
    String.mk

/-- `patternList.some(p => p.test(line))` for prefix regexes `/^x:?/im`:
case-insensitive prefix test against every regex-level line. -/
def testStart (prefixes : List String) (line : String) : Bool :=
  (reLineSegs line).any (fun seg =>
    prefixes.any (fun p => (lcStr p).data.isPrefixOf (lcStr seg).data))

def subjectivePats : List String := ["subjective", "history", "hpi", "s"]
def objectivePats : List String := ["objective", "physical exam", "findings", "o"]
def assessmentPats : List String := ["assessment", "impression", "a"]
def planPats : List String := ["plan", "treatment", "recommendations", "p"]

/-- The header test chain of the line loop: which section header (if any)
a line matches, trying S, O, A, P pattern groups in source order. -/
def headerTagOf (line : String) : Option Tag :=
  if testStart subjectivePats line then some Tag.S
  else if testStart objectivePats line then some Tag.O
  else if testStart assessmentPats line then some Tag.A
  else if testStart planPats line then some Tag.P
  else none

/-- One iteration of the `for (const line of lines)` loop: a header line
switches the current section and is consumed (`continue`); any other line
is appended, with `'\n'`, to the current section (or to S before any
header). -/
def soapStep (acc : SoapSections × Option Tag) (line : String) :
    SoapSections × Option Tag :=
  match headerTagOf line with
  | some t => (acc.1, some t)
  | none =>
    match acc.2 with
    | some t => (acc.1.app t (line ++ "\n"), acc.2)
    | none => (acc.1.app Tag.S (line ++ "\n"), acc.2)

/-- Bit length of a natural number (fuel-bounded; exact for all inputs
below `2 ^ 128`, far above any value arising here). -/
def bitLenAux : Nat → Nat → Nat
  | 0, _ => 0
  | fuel + 1, n => if n = 0 then 0 else bitLenAux fuel (n / 2) + 1

def bitLen (n : Nat) : Nat := bitLenAux 128 n

/-- Round an integer to 53 significant bits, ties to even: the exact
significand rounding IEEE double multiplication performs. -/
def roundTo53 (v : Nat) : Nat :=
  if v < 2 ^ 53 then v
  else
    let shift := bitLen v - 53
    let q := v / 2 ^ shift
    let r := v % 2 ^ shift
    let half := 2 ^ (shift - 1)
    let q2 := if half < r || (r == half && q % 2 == 1) then q + 1 else q
    q2 * 2 ^ shift

/-- `Math.floor(n * c)` where `c` is the double with significand `sig`
and value `sig * 2 ^ (-pow)`: the product `n * c` is computed exactly,
rounded to double precision, then floored.  Used with
`0.35 = 3152519739159347 * 2⁻⁵³`, `0.7 = 3152519739159347 * 2⁻⁵²` and
`0.85 = 7656119366529843 * 2⁻⁵³`. -/
def jsFloorMul (sig pow n : Nat) : Nat := roundTo53 (n * sig) / 2 ^ pow

/-- `inferSoapSections(notes)`: positional split of the lines at
`Math.floor(totalLines * 0.35)`, `* 0.7` and `* 0.85`. -/
def inferSoapSections (notes : String) : SoapSections :=
  let lines := jsSplitChar '\n' notes
  let totalLines := lines.length
  let sEndIndex := jsFloorMul 3152519739159347 53 totalLines
  let oEndIndex := jsFloorMul 3152519739159347 52 totalLines
  let aEndIndex := jsFloorMul 7656119366529843 53 totalLines
  lines.enum.foldl
    (fun secs p =>
      if p.1 < sEndIndex then secs.app Tag.S (p.2 ++ "\n")
      else if p.1 < oEndIndex then secs.app Tag.O (p.2 ++ "\n")
      else if p.1 < aEndIndex then secs.app Tag.A (p.2 ++ "\n")
      else secs.app Tag.P (p.2 ++ "\n"))
    emptySections

/-- `identifySoapSections(notes)` (Groq iteration): header-driven line
scan; if all four buffers end up falsy (empty), fall through to
`inferSoapSections`. -/
def identifySoapSections (notes : String) : SoapSections :=
  let lines := jsSplitChar '\n' notes
  let r := (lines.foldl soapStep (emptySections, none)).1
  if strEmpty r.S && strEmpty r.O && strEmpty r.A && strEmpty r.P then
    inferSoapSections notes
  else r

/-! ## Snippet Extractor (`extractTextSnippet`)

The vital-sign regex
`/(?:BP|HR|RR|temp|temperature|pulse|respiration|SpO2|O2 sat)[:\s-]+\d+(?:[\/.]?\d+)?(?:\s*(?:mmHg|bpm|%|°[CF]|C|F))?/gi`
is implemented as a direct matcher: ordered alternation over the labels,
then a mandatory separator run, a digit run, an optional
separator-plus-digit run and an optional whitespace-plus-unit suffix.  All
character classes of consecutive pieces are disjoint, so greedy matching
needs no backtracking beyond the ordered label/unit alternation. -/

def vitalLabels : List String :=
  ["BP", "HR", "RR", "temp", "temperature", "pulse", "respiration", "SpO2", "O2 sat"]

def vitalUnits : List String := ["mmHg", "bpm", "%", "°C", "°F", "C", "F"]

/-- Case-insensitive literal prefix strip: if `pat` (case-folded) is a
prefix of `s` (case-folded), return the consumed characters and the rest. -/
def ciStrip (pat s : List Char) : Option (List Char × List Char) :=
  match pat, s with
  | [], rest => some ([], rest)
  | _ :: _, [] => none
  | p :: ps, c :: cs =>
    if p.toLower = c.toLower then
      match ciStrip ps cs with
      | some (used, rest) => some (c :: used, rest)
      | none => none
    else none

/-- The `[:\s-]` character class. -/
def vsSepChar (c : Char) : Bool := c = ':' || jsWhitespace c || c = '-'

/-- Try the tail of the vital-sign regex after a matched label; returns
the consumed characters and the rest of the input. -/
def vitalTail (s : List Char) : Option (List Char × List Char) :=
  let seps := s.takeWhile vsSepChar
  let rest1 := s.drop seps.length
  if seps.isEmpty then none
  else
    let digits := rest1.takeWhile Char.isDigit
    let rest2 := rest1.drop digits.length
    if digits.isEmpty then none
    else
      let (frac, rest3) :=
        match rest2 with
        | c :: cs =>
          if (c = '/' || c = '.') && !(cs.takeWhile Char.isDigit).isEmpty then
            (c :: cs.takeWhile Char.isDigit, cs.drop (cs.takeWhile Char.isDigit).length)
          else ([], rest2)
        | [] => ([], rest2)
      let ws := rest3.takeWhile jsWhitespace
      let rest4 := rest3.drop ws.length
      let unitMatch := vitalUnits.firstM (fun u => ciStrip u.data rest4)
      match unitMatch with
      | some (used, rest5) => some (seps ++ digits ++ frac ++ ws ++ used, rest5)
      | none => some (seps ++ digits ++ frac, rest3)

/-- Try the whole vital-sign regex at the current position: labels in
alternation order, each followed by `vitalTail`. -/
def vitalAt (s : List Char) : Option (List Char × List Char) :=
  vitalLabels.firstM (fun lab =>
    match ciStrip lab.data s with
    | some (used, rest) =>
      match vitalTail rest with
      | some (used2, rest2) => some (used ++ used2, rest2)
      | none => none
    | none => none)

/-- `notes.match(vitalSignRegex)` with the `g` flag: leftmost matches,
scanning resumes after each match (every match is non-empty). -/
def scanVitalsAux : Nat → List Char → List String
  | 0, _ => []
  | _ + 1, [] => []
  | fuel + 1, c :: cs =>
    match vitalAt (c :: cs) with
    | some (m, rest) => String.mk m :: scanVitalsAux fuel rest
    | none => scanVitalsAux fuel cs

def scanVitals (notes : String) : List String := scanVitalsAux notes.data.length notes.data

/-- Sentence split: `notes.split(/[.!?]+/)` followed by the
whitespace-only filter.  Splitting at every single delimiter and then
filtering is equivalent to splitting at delimiter runs and filtering,
because the runs differ only by empty fragments, which the filter drops. -/
def sentencesOf (notes : String) : List String :=
  ((splitBy (fun c => c == '.' || c == '!' || c == '?') notes.data).map String.mk).filter
    (fun s => decide ((jsTrim s).length > 0))

/-- `extractTextSnippet(notes, requiredElement)`. -/
def extractTextSnippet (notes requiredElement : String) : String :=
  match lookupContext requiredElement with
  | none => "Content detected (no specific text extracted)"
  | some context =>
    let sentences := sentencesOf notes
    let relevantSentences := sentences.filterMap (fun sentence =>
      let hasPat := hasPatternIn context sentence
      let hasClue := hasClueIn context sentence
      if hasPat || hasClue then some (jsTrim sentence) else none)
    let vitalMatches :=
      if requiredElement == "Vital signs" then scanVitals notes else []
    if requiredElement == "Vital signs" && decide (vitalMatches.length > 0) then
      String.intercalate "; " vitalMatches
    else if decide (relevantSentences.length > 0) then
      if decide (relevantSentences.length > 3) then
        String.intercalate ". " (relevantSentences.take 3) ++ "..."
      else String.intercalate ". " relevantSentences
    else
      let keywords := keywordsOf requiredElement
      match sentences.find? (fun sentence =>
        decide (sentence.length < 200) &&
          keywords.any (fun k => strContains (lcStr sentence) k)) with
      | some sentence => jsTrim sentence
      | none => "Content detected (no specific text extracted)"

/-! ## Element Analyzer (`analyzeMedicalText`, Groq iteration)

The Groq capability is modelled by an oracle value:
`none` — `initializeGroqClient` yielded no client (missing key or failed
construction, both caught inside it); `some (Except.error ())` — the chat
call threw; `some (Except.ok answer)` — the chat call returned `answer`
(`response.choices[0]?.message?.content || ""`). -/

/-- Result record per element per note.  `soapSection` carries the
catalog tag (the source stores the tag letter, or leaves the field
`undefined` = `none`). -/
structure MatchResult where
  hasContent : Bool
  matchedText : Option String
  soapSection : Option Tag
deriving DecidableEq

abbrev GroqOracle := Option (Except Unit String)

/-- `fallbackAnalysis(notes, requiredElement, soapSection)`. -/
def fallbackAnalysis (notes requiredElement : String) (soapSection : Option Tag) :
    MatchResult :=
  let hasMatch :=
    findContextualMatch notes requiredElement || containsKeywords notes requiredElement
  if hasMatch then
    { hasContent := true
      matchedText := some (extractTextSnippet notes requiredElement)
      soapSection := soapSection }
  else
    { hasContent := false, matchedText := none, soapSection := soapSection }

/-- `medicalContexts[requiredElement]?.soapSection`. -/
def relevantSectionOf (requiredElement : String) : Option Tag :=
  (lookupContext requiredElement).map (fun c => c.soapSection)

/-- The body of the `try` block of `analyzeMedicalText`: sections, text
selection, client check, Groq call and answer parsing.  An `Except.error`
is an uncaught exception escaping the body (only the modelled chat call
throws; the heuristic tiers are total). -/
def analyzeBody (groq : GroqOracle) (notes requiredElement : String) :
    Except Unit MatchResult :=
  let soapSections := identifySoapSections notes
  let relevantSection := relevantSectionOf requiredElement
  let sectionText :=
    match relevantSection with
    | some t => soapSections.get t
    | none => ""
  let textToAnalyze := if strEmpty sectionText then notes else sectionText
  match groq with
  | none => Except.ok (fallbackAnalysis textToAnalyze requiredElement relevantSection)
  | some (Except.error e) => Except.error e
  | some (Except.ok answer) =>
    if strStartsWith answer "YES:" then
      Except.ok
        { hasContent := true
          matchedText := some (jsTrim (strDrop 4 answer))
          soapSection := relevantSection }
    else
      Except.ok { hasContent := false, matchedText := none, soapSection := relevantSection }

/-- `analyzeMedicalText` in the exception monad: the `try`/`catch` around
the body, the `catch` falling back to `fallbackAnalysis(notes,
requiredElement)` on the full note with no section. -/
def analyzeMedicalTextE (groq : GroqOracle) (notes requiredElement : String) :
    Except Unit MatchResult :=
  match analyzeBody groq notes requiredElement with
  | Except.error _ => Except.ok (fallbackAnalysis notes requiredElement none)
  | Except.ok r => Except.ok r

/-- `analyzeMedicalText(notes, requiredElement)` as the total function it
evaluates to. -/
def analyzeMedicalText (groq : GroqOracle) (notes requiredElement : String) :
    MatchResult :=
  match analyzeBody groq notes requiredElement with
  | Except.error _ => fallbackAnalysis notes requiredElement none
  | Except.ok r => r

/-! ## Initialization guards as state machines

Each module-level mutable initialization guard is modelled as a step
function on its state; the outside world (model download, client
construction) is an `Except` outcome argument.  Every step returns the
new state, the value the caller observes, and how many external load
attempts the call performed. -/

/-- Module state of `part_000` (`embeddingModel`, `modelLoadAttempted`). -/
structure EmbedModelState (M : Type) where
  embeddingModel : Option M
  modelLoadAttempted : Bool
deriving DecidableEq

/-- `initializeModel()`: attempt the pipeline load only when no model is
cached and no attempt was made; the flag is set before the load, so a
thrown load (caught, returning `null`) still marks the attempt. -/
def initializeModel {M : Type} (st : EmbedModelState M) (outcome : Except Unit M) :
    EmbedModelState M × Option M × Bool :=
  if st.embeddingModel.isNone && !st.modelLoadAttempted then
    match outcome with
    | Except.ok m => (⟨some m, true⟩, some m, true)
    | Except.error _ => (⟨none, true⟩, none, true)
  else (st, st.embeddingModel, false)

/-- Total number of load attempts over a sequence of calls. -/
def runEmbedCalls {M : Type} (st : EmbedModelState M) : List (Except Unit M) → Nat
  | [] => 0
  | o :: os =>
    let r := initializeModel st o
    (if r.2.2 then 1 else 0) + runEmbedCalls r.1 os

/-- Module state of the Groq client file (`groqClient`, `modelLoadAttempted`). -/
structure GroqClientState (C : Type) where
  groqClient : Option C
  modelLoadAttempted : Bool
deriving DecidableEq

/-- `initializeGroqClient()`: guarded by `!groqClient && !modelLoadAttempted`;
sets the flag first, returns `null` on a missing API key or a thrown
constructor, otherwise caches the client. -/
def initializeGroqClient {C : Type} (st : GroqClientState C) (apiKeyPresent : Bool)
    (outcome : Except Unit C) : GroqClientState C × Option C × Bool :=
  if st.groqClient.isNone && !st.modelLoadAttempted then
    if !apiKeyPresent then (⟨none, true⟩, none, true)
    else
      match outcome with
      | Except.ok c => (⟨some c, true⟩, some c, true)
      | Except.error _ => (⟨none, true⟩, none, true)
  else (st, st.groqClient, false)

/-- Total number of construction attempts over a sequence of calls. -/
def runGroqCalls {C : Type} (st : GroqClientState C) :
    List (Bool × Except Unit C) → Nat
  | [] => 0
  | o :: os =>
    let r := initializeGroqClient st o.1 o.2
    (if r.2.2 then 1 else 0) + runGroqCalls r.1 os

/-- Module state of the HuggingFace iteration (`modelLoadingState`):
classification model, QA model and the in-progress flag — with no
attempted-once flag. -/
structure ModelsState (M : Type) where
  classificationModel : Option M
  qaModel : Option M
  isLoading : Bool
deriving DecidableEq

/-- `initializeModels()`: early-return while `isLoading`; otherwise set
`isLoading`, load each model that is still `null` (each a counted
attempt), reset `isLoading` in both the success path and the `catch`.
Returns the new state, the JS return value (`undefined`/`true`/`false`
as `none`/`some true`/`some false`) and the number of load attempts. -/
def initializeModels {M : Type} (st : ModelsState M) (o1 o2 : Except Unit M) :
    ModelsState M × Option Bool × Nat :=
  if st.isLoading then (st, none, 0)
  else
    match st.classificationModel, o1 with
    | none, Except.error _ => (⟨none, st.qaModel, false⟩, some false, 1)
    | none, Except.ok m1 =>
      match st.qaModel, o2 with
      | none, Except.error _ => (⟨some m1, none, false⟩, some false, 2)
      | none, Except.ok m2 => (⟨some m1, some m2, false⟩, some true, 2)
      | some q, _ => (⟨some m1, some q, false⟩, some true, 1)
    | some c, _ =>
      match st.qaModel, o2 with
      | none, Except.error _ => (⟨some c, none, false⟩, some false, 1)
      | none, Except.ok m2 => (⟨some c, some m2, false⟩, some true, 1)
      | some q, _ => (⟨some c, some q, false⟩, some true, 0)

/-! ## Specification views used in theorem statements -/

/-- Specification of the header scan: the tag assigned to each
non-header line (the section of the most recent preceding header, S
before any header); header lines are absent from the result. -/
def assignedLines (cur : Option Tag) : List String → List (Tag × String)
  | [] => []
  | l :: ls =>
    match headerTagOf l with
    | some t => assignedLines (some t) ls
    | none => (cur.getD Tag.S, l) :: assignedLines cur ls

/-- The text a tag accumulates from an assignment list: its lines in
order, each with a trailing newline. -/
def tagContent (t : Tag) : List (Tag × String) → String
  | [] => ""
  | p :: ps => (if p.1 = t then p.2 ++ "\n" else "") ++ tagContent t ps

/-- Lines joined with one trailing newline each. -/
def joinLines : List String → String
  | [] => ""
  | l :: ls => (l ++ "\n") ++ joinLines ls

/-- Lines joined by `'\n'` separators (inverse of `split('\n')` for
newline-free lines). -/
def joinWithNL : List String → String
  | [] => ""
  | [l] => l
  | l :: l2 :: ls => l ++ "\n" ++ joinWithNL (l2 :: ls)

/-- Modelled from the claim wording of C4: the general contextual rule —
any trigger pattern occurs, or any context clue occurs and the text is
longer than 50 characters. -/
def claimedGeneralRule (ctx : ElementContext) (text : String) : Bool :=
  hasPatternIn ctx text || (hasClueIn ctx text && decide ((lcStr text).length > 50))

/-- Modelled from the claim wording of C4: the vital-signs result as the
special numeric rule joined by OR with the general rule. -/
def claimedVitalsRule (text : String) : Bool :=
  vitalsNumericRule text || claimedGeneralRule vitalSignsCtx text

/-! ## Helper lemmas: string algebra -/

theorem strMkData (s : String) : String.mk s.data = s := by
  rcases s with ⟨d⟩; rfl

theorem strDataAppend (a b : String) : (a ++ b).data = a.data ++ b.data := by
  rcases a with ⟨x⟩; rcases b with ⟨y⟩; rfl

theorem strAppendEmpty (a : String) : a ++ "" = a := by
  rcases a with ⟨x⟩
  exact congrArg String.mk (List.append_nil x)

theorem strEmptyAppend (a : String) : "" ++ a = a := by
  rcases a with ⟨x⟩; rfl

theorem strAppendAssoc (a b c : String) : a ++ b ++ c = a ++ (b ++ c) := by
  rcases a with ⟨x⟩; rcases b with ⟨y⟩; rcases c with ⟨z⟩
  exact congrArg String.mk (List.append_assoc x y z)

theorem strAppendNlNeEmpty (l rest : String) : (l ++ "\n") ++ rest ≠ "" := by
  intro h
  have hd : l.data ++ '\n' :: [] ++ rest.data = ([] : List Char) := by
    have := congrArg String.data h
    rwa [strDataAppend, strDataAppend] at this
  simp at hd

theorem strEmpty_iff (s : String) : strEmpty s = true ↔ s = "" := by
  rcases s with ⟨d⟩
  constructor
  · intro h
    have hd : d = [] := by simpa [strEmpty] using h
    subst hd
    rfl
  · intro h
    have hd : d = [] := by
      have h2 := congrArg String.data h
      simpa using h2
    subst hd
    rfl

/-! ## Helper lemmas: the character-list splitter -/

theorem splitBy_ne_nil (p : Char → Bool) (xs : List Char) : splitBy p xs ≠ [] := by
  induction xs with
  | nil => simp [splitBy]
  | cons c cs ih =>
    by_cases hc : p c
    · simp [splitBy, hc]
    · simp only [splitBy, hc]
      rcases hsp : splitBy p cs with _ | ⟨l, ls⟩
      · exact absurd hsp ih
      · simp

theorem splitBy_no_sep (p : Char → Bool) (xs : List Char)
    (h : ∀ c ∈ xs, p c = false) : splitBy p xs = [xs] := by
  induction xs with
  | nil => rfl
  | cons c cs ih =>
    have hc : p c = false := h c (List.mem_cons_self c cs)
    have hrest := ih (fun c' hc' => h c' (List.mem_cons_of_mem c hc'))
    simp [splitBy, hc, hrest]

theorem splitBy_append_sep (p : Char → Bool) (sep : Char) (hsep : p sep = true)
    (xs : List Char) : ∀ ys : List Char, (∀ c ∈ xs, p c = false) →
    splitBy p (xs ++ sep :: ys) = xs :: splitBy p ys := by
  induction xs with
  | nil => intro ys _; simp [splitBy, hsep]
  | cons c cs ih =>
    intro ys h
    have hc : p c = false := h c (List.mem_cons_self c cs)
    have hrest := ih ys (fun c' hc' => h c' (List.mem_cons_of_mem c hc'))
    simp [splitBy, hc, hrest]

theorem jsSplitChar_joinWithNL (ls : List String) : ls ≠ [] →
    (∀ l ∈ ls, '\n' ∉ l.data) → jsSplitChar '\n' (joinWithNL ls) = ls := by
  induction ls with
  | nil => intro h; exact absurd rfl h
  | cons l ls ih =>
    intro _ h
    have hl : ∀ c ∈ l.data, (c == '\n') = false := by
      intro c hc
      have : c ≠ '\n' := fun he => (h l (List.mem_cons_self l ls)) (he ▸ hc)
      simpa using this
    cases ls with
    | nil =>
      show jsSplitChar '\n' l = [l]
      rw [jsSplitChar, splitBy_no_sep _ _ hl]
      simp [strMkData]
    | cons l2 ls2 =>
      have hdata : (joinWithNL (l :: l2 :: ls2)).data
          = l.data ++ '\n' :: (joinWithNL (l2 :: ls2)).data := by
        show (l ++ "\n" ++ joinWithNL (l2 :: ls2)).data = _
        rw [strDataAppend, strDataAppend]
        simp
      rw [jsSplitChar, hdata, splitBy_append_sep _ '\n' (by simp) _ _ hl]
      have htail := ih (by simp) (fun l' hl' => h l' (List.mem_cons_of_mem l hl'))
      rw [jsSplitChar] at htail
      simp only [List.map_cons, strMkData, htail]

/-! ## Helper lemmas: the header scan -/

theorem soap_get_app (secs : SoapSections) (t' t : Tag) (s : String) :
    (secs.app t' s).get t = secs.get t ++ (if t' = t then s else "") := by
  cases t' <;> cases t <;>
    simp [SoapSections.app, SoapSections.get, strAppendEmpty]

theorem soap_eq_of_get (x y : SoapSections) (h : ∀ t, x.get t = y.get t) : x = y := by
  rcases x with ⟨xs, xo, xa, xp⟩
  rcases y with ⟨ys, yo, ya, yp⟩
  have h1 : xs = ys := h Tag.S
  have h2 : xo = yo := h Tag.O
  have h3 : xa = ya := h Tag.A
  have h4 : xp = yp := h Tag.P
  simp [h1, h2, h3, h4]

theorem soapScan_get (lines : List String) :
    ∀ (secs : SoapSections) (cur : Option Tag) (t : Tag),
      ((lines.foldl soapStep (secs, cur)).1).get t
        = secs.get t ++ tagContent t (assignedLines cur lines) := by
  induction lines with
  | nil =>
    intro secs cur t
    simp [assignedLines, tagContent, strAppendEmpty]
  | cons l ls ih =>
    intro secs cur t
    rcases hh : headerTagOf l with _ | t'
    · rcases cur with _ | tc
      · have hstep : soapStep (secs, none) l = (secs.app Tag.S (l ++ "\n"), none) := by
          simp [soapStep, hh]
        rw [List.foldl_cons, hstep, ih, soap_get_app]
        simp only [assignedLines, hh, tagContent, Option.getD]
        rw [strAppendAssoc]
      · have hstep : soapStep (secs, some tc) l = (secs.app tc (l ++ "\n"), some tc) := by
          simp [soapStep, hh]
        rw [List.foldl_cons, hstep, ih, soap_get_app]
        simp only [assignedLines, hh, tagContent, Option.getD]
        rw [strAppendAssoc]
    · have hstep : soapStep (secs, cur) l = (secs, some t') := by
        simp [soapStep, hh]
      rw [List.foldl_cons, hstep, ih]
      simp only [assignedLines, hh]

theorem mem_assignedLines (lines : List String) :
    ∀ (cur : Option Tag) (l : String), l ∈ lines → headerTagOf l = none →
      ∃ t0, (t0, l) ∈ assignedLines cur lines := by
  induction lines with
  | nil => intro cur l hl; exact absurd hl (List.not_mem_nil l)
  | cons a ls ih =>
    intro cur l hl hnone
    rcases List.mem_cons.mp hl with he | hm
    · subst he
      refine ⟨cur.getD Tag.S, ?_⟩
      simp [assignedLines, hnone]
    · rcases hh : headerTagOf a with _ | t'
      · rcases ih cur l hm hnone with ⟨t0, ht0⟩
        exact ⟨t0, by simp [assignedLines, hh, List.mem_cons, Or.inr ht0]⟩
      · rcases ih (some t') l hm hnone with ⟨t0, ht0⟩
        exact ⟨t0, by simp [assignedLines, hh, ht0]⟩

theorem tagContent_ne_empty (t0 : Tag) (l : String) (ps : List (Tag × String)) :
    (t0, l) ∈ ps → tagContent t0 ps ≠ "" := by
  induction ps with
  | nil => intro h; exact absurd h (List.not_mem_nil _)
  | cons p ps ih =>
    intro hm
    show (if p.1 = t0 then p.2 ++ "\n" else "") ++ tagContent t0 ps ≠ ""
    by_cases hp : p.1 = t0
    · rw [if_pos hp]
      exact strAppendNlNeEmpty p.2 (tagContent t0 ps)
    · rw [if_neg hp, strEmptyAppend]
      rcases List.mem_cons.mp hm with he | hm2
      · exact absurd (congrArg Prod.fst he.symm) hp
      · exact ih hm2

theorem soap_guard_false (r : SoapSections) (t0 : Tag) (h : r.get t0 ≠ "") :
    (strEmpty r.S && strEmpty r.O && strEmpty r.A && strEmpty r.P) = false := by
  have h' : strEmpty (r.get t0) = false := by
    rcases hb : strEmpty (r.get t0) with _ | _
    · rfl
    · exact absurd ((strEmpty_iff _).mp hb) h
  cases t0 <;> simp [SoapSections.get] at h' <;> simp [h']

/-- On any note with at least one non-header line, `identifySoapSections`
returns the header scan (no positional fallthrough), and each section is
exactly the newline-terminated concatenation of the non-header lines
assigned to it. -/
theorem identify_eq_scan (notes : String)
    (hex : ∃ l, l ∈ jsSplitChar '\n' notes ∧ headerTagOf l = none) :
    ∀ t, (identifySoapSections notes).get t
      = tagContent t (assignedLines none (jsSplitChar '\n' notes)) := by
  obtain ⟨l, hl, hnone⟩ := hex
  obtain ⟨t0, ht0⟩ := mem_assignedLines _ none l hl hnone
  have hget : ∀ t, (((jsSplitChar '\n' notes).foldl soapStep (emptySections, none)).1).get t
      = tagContent t (assignedLines none (jsSplitChar '\n' notes)) := by
    intro t
    rw [soapScan_get]
    have he : emptySections.get t = "" := by cases t <;> rfl
    rw [he, strEmptyAppend]
  have hne : (((jsSplitChar '\n' notes).foldl soapStep (emptySections, none)).1).get t0 ≠ "" := by
    rw [hget t0]
    exact tagContent_ne_empty t0 l _ ht0
  intro t
  show (if (strEmpty _ && strEmpty _ && strEmpty _ && strEmpty _) = true
        then inferSoapSections notes
        else ((jsSplitChar '\n' notes).foldl soapStep (emptySections, none)).1).get t = _
  rw [soap_guard_false _ t0 hne]
  · simp only [Bool.false_eq_true, if_false]
    exact hget t

theorem assignedLines_append_content (xs : List String) :
    ∀ (ys : List String) (cur : Option Tag), (∀ l ∈ xs, headerTagOf l = none) →
      assignedLines cur (xs ++ ys)
        = xs.map (fun l => (cur.getD Tag.S, l)) ++ assignedLines cur ys := by
  induction xs with
  | nil => intro ys cur _; rfl
  | cons x xs ih =>
    intro ys cur h
    have hx : headerTagOf x = none := h x (List.mem_cons_self x xs)
    have hrest := ih ys cur (fun l hl => h l (List.mem_cons_of_mem x hl))
    simp [assignedLines, hx, hrest]

theorem assignedLines_header (hdr : String) (t : Tag) (ys : List String)
    (cur : Option Tag) (hh : headerTagOf hdr = some t) :
    assignedLines cur (hdr :: ys) = assignedLines (some t) ys := by
  simp [assignedLines, hh]

theorem tagContent_append (t : Tag) (ps qs : List (Tag × String)) :
    tagContent t (ps ++ qs) = tagContent t ps ++ tagContent t qs := by
  induction ps with
  | nil => rw [List.nil_append]; exact (strEmptyAppend _).symm
  | cons p ps ih =>
    show (if p.1 = t then p.2 ++ "\n" else "") ++ tagContent t (ps ++ qs) = _
    rw [ih]
    show _ = (if p.1 = t then p.2 ++ "\n" else "") ++ tagContent t ps ++ tagContent t qs
    rw [strAppendAssoc]

theorem tagContent_map_self (t : Tag) (xs : List String) :
    tagContent t (xs.map (fun l => (t, l))) = joinLines xs := by
  induction xs with
  | nil => rfl
  | cons x xs ih =>
    show (if t = t then x ++ "\n" else "") ++ tagContent t (xs.map _) = (x ++ "\n") ++ joinLines xs
    rw [if_pos rfl, ih]

theorem tagContent_map_other (t t' : Tag) (ht : t' ≠ t) (xs : List String) :
    tagContent t (xs.map (fun l => (t', l))) = "" := by
  induction xs with
  | nil => rfl
  | cons x xs ih =>
    show (if t' = t then x ++ "\n" else "") ++ tagContent t (xs.map _) = ""
    rw [if_neg ht, ih]
    rfl

theorem joinLines_ne_empty (xs : List String) (h : xs ≠ []) : joinLines xs ≠ "" := by
  cases xs with
  | nil => exact absurd rfl h
  | cons x xs => exact strAppendNlNeEmpty x (joinLines xs)

/-! ## Claim C1 -/

/-- C1 counterexample: "foo" is absent from the Pattern Catalog, yet
`analyze("foo", "foo")` reports content (the keyword tier matched the
own word of the element name), refuting hasContent=false for every note. -/
theorem C1_counterexample :
    lookupContext "foo" = none ∧
      analyzeMedicalText none "foo" "foo"
        = ⟨true, some "Content detected (no specific text extracted)", none⟩ := by
  decide

/-- C1 amended: for an element name absent from the Pattern Catalog,
`analyze` (heuristic mode) never throws, the contextual tier never fires
and the snippet is the default string, but the keyword tier still applies
to the words of the element name itself: the result is positive iff at least half
of them occur in the note, and `{false, null, null}` otherwise. -/
theorem C1_amended (notes elem : String) (h : lookupContext elem = none) :
    analyzeMedicalText none notes elem =
      if containsKeywords notes elem then
        ⟨true, some "Content detected (no specific text extracted)", none⟩
      else ⟨false, none, none⟩ := by
  have hrel : relevantSectionOf elem = none := by
    rw [relevantSectionOf, h]; rfl
  have hbody : analyzeBody none notes elem
      = Except.ok (fallbackAnalysis notes elem none) := by
    unfold analyzeBody
    rw [hrel]
    rfl
  have hctx : findContextualMatch notes elem = false := by
    unfold findContextualMatch
    rw [h]
  have hsnip : extractTextSnippet notes elem
      = "Content detected (no specific text extracted)" := by
    unfold extractTextSnippet
    rw [h]
  unfold analyzeMedicalText
  rw [hbody]
  unfold fallbackAnalysis
  rw [hctx]
  cases hk : containsKeywords notes elem <;> simp [hk, hsnip]

/-- C1 witness: concrete unknown element, no keyword hit. -/
theorem C1_amended_witness :
    lookupContext "Body mass index" = none ∧
      analyzeMedicalText none "routine visit" "Body mass index" = ⟨false, none, none⟩ := by
  refine ⟨by decide, ?_⟩
  rw [C1_amended "routine visit" "Body mass index" (by decide)]
  decide

/-! ## Claim C4 -/

/-- C4 counterexample: the text "vitals" contains a vital-signs trigger
pattern, so the claimed rule (special rule OR general rule) is true, but
`findContextualMatch` returns false: for vital signs the code requires
pattern AND clue in the non-numeric arm. -/
theorem C4_counterexample :
    claimedVitalsRule "vitals" = true ∧
      findContextualMatch "vitals" "Vital signs" = false := by
  decide

/-- C4 amended: for the vital-signs element the Contextual Matcher
returns true iff the text has a digit plus one of "bp"/"hr"/"temp"/"rr",
OR a trigger pattern AND a context clue both occur (the pattern-only /
clue-plus-length general rule is not applied); the concrete
example of the claim, "BP 140/90, no other findings", does match. -/
theorem C4_amended :
    (∀ text, findContextualMatch text "Vital signs"
        = (vitalsNumericRule text
            || (hasPatternIn vitalSignsCtx text && hasClueIn vitalSignsCtx text)))
    ∧ findContextualMatch "BP 140/90, no other findings" "Vital signs" = true := by
  refine ⟨fun text => ?_, by decide⟩
  have hl : lookupContext "Vital signs" = some vitalSignsCtx := by decide
  unfold findContextualMatch
  rw [hl]
  rfl

/-! ## Claim C5 -/

/-- C5: the analyzer never lets an exception escape: for every Groq
oracle outcome (no client, thrown call, returned answer) the
exception-monad run returns `ok` of the result of the total analyzer. -/
theorem C5_no_exception_escape (groq : GroqOracle) (notes elem : String) :
    analyzeMedicalTextE groq notes elem
      = Except.ok (analyzeMedicalText groq notes elem) := by
  unfold analyzeMedicalTextE analyzeMedicalText
  cases h : analyzeBody groq notes elem <;> simp

/-! ## Claim C7 -/

/-- C7: the Keyword Matcher returns true iff at least `ceil(k / 2)` of
the `k` whitespace-split case-folded keywords of the element name occur
in the case-folded text; "Past medical history" with "past" and
"history" (but not "medical") matches, with only "past" it does not. -/
theorem C7_keyword_matcher :
    (∀ text element, containsKeywords text element = true ↔
        ((keywordsOf element).length + 1) / 2 ≤ keywordMatchCount text element)
    ∧ containsKeywords "noted past events and family history" "Past medical history" = true
    ∧ containsKeywords "noted past events only" "Past medical history" = false := by
  refine ⟨fun text element => ?_, by decide, by decide⟩
  unfold containsKeywords
  exact decide_eq_true_iff

/-! ## Claim C8 -/

/-- C8 counterexample: on the empty note the S buffer is a single
newline (the empty line carried with its terminator), not the empty
string. -/
theorem C8_counterexample :
    (identifySoapSections "").S = "\n" ∧ (identifySoapSections "").S ≠ "" := by
  decide

/-- C8 amended: the empty note yields every catalog element missing
(`hasContent = false`, `matchedText = null`) and the split has O, A, P
empty while S is one bare newline. -/
theorem C8_amended :
    identifySoapSections "" = ⟨"\n", "", "", ""⟩
    ∧ analyzeMedicalText none "" "Chief complaint" = ⟨false, none, some Tag.S⟩
    ∧ analyzeMedicalText none "" "History of present illness" = ⟨false, none, some Tag.S⟩
    ∧ analyzeMedicalText none "" "Past medical history" = ⟨false, none, some Tag.S⟩
    ∧ analyzeMedicalText none "" "Current medications" = ⟨false, none, some Tag.S⟩
    ∧ analyzeMedicalText none "" "Allergies" = ⟨false, none, some Tag.S⟩
    ∧ analyzeMedicalText none "" "Physical examination findings" = ⟨false, none, some Tag.O⟩
    ∧ analyzeMedicalText none "" "Vital signs" = ⟨false, none, some Tag.O⟩
    ∧ analyzeMedicalText none "" "Lab results" = ⟨false, none, some Tag.O⟩
    ∧ analyzeMedicalText none "" "Diagnosis" = ⟨false, none, some Tag.A⟩
    ∧ analyzeMedicalText none "" "Treatment plan" = ⟨false, none, some Tag.P⟩
    ∧ analyzeMedicalText none "" "Follow-up instructions" = ⟨false, none, some Tag.P⟩ := by
  decide

/-! ## Claim C9 -/

theorem runEmbed_attempted_zero {M : Type} (os : List (Except Unit M)) :
    ∀ st : EmbedModelState M, st.modelLoadAttempted = true → runEmbedCalls st os = 0 := by
  induction os with
  | nil => intro st _; rfl
  | cons o os ih =>
    intro st h
    have hstep : initializeModel st o = (st, st.embeddingModel, false) := by
      unfold initializeModel
      rw [h]
      simp
    show (if (initializeModel st o).2.2 then 1 else 0)
        + runEmbedCalls (initializeModel st o).1 os = 0
    rw [hstep]
    simpa using ih st h

theorem runGroq_attempted_zero {C : Type} (calls : List (Bool × Except Unit C)) :
    ∀ st : GroqClientState C, st.modelLoadAttempted = true → runGroqCalls st calls = 0 := by
  induction calls with
  | nil => intro st _; rfl
  | cons o os ih =>
    intro st h
    have hstep : initializeGroqClient st o.1 o.2 = (st, st.groqClient, false) := by
      unfold initializeGroqClient
      rw [h]
      simp
    show (if (initializeGroqClient st o.1 o.2).2.2 then 1 else 0)
        + runGroqCalls (initializeGroqClient st o.1 o.2).1 os = 0
    rw [hstep]
    simpa using ih st h

/-- C9 counterexample: for the classification/QA guard
(`modelLoadingState`), a failed first call performs one load attempt and
leaves the state exactly as it started (no attempted flag), and the next
call performs another load attempt: a failed first attempt IS retried. -/
theorem C9_counterexample :
    (initializeModels (M := Nat) ⟨none, none, false⟩ (Except.error ()) (Except.error ())).1
        = ⟨none, none, false⟩
    ∧ (initializeModels (M := Nat) ⟨none, none, false⟩ (Except.error ()) (Except.error ())).2.2
        = 1
    ∧ (initializeModels (M := Nat)
          ((initializeModels (M := Nat) ⟨none, none, false⟩
            (Except.error ()) (Except.error ())).1)
          (Except.error ()) (Except.error ())).2.2 = 1 := by
  decide

/-- C9 amended: the embedding model (`part_000`) and the Groq client are
attempted at most once per process over any call sequence (success or
failure is cached behind `modelLoadAttempted`); the classification/QA
initialization (`modelLoadingState`) has no attempted flag — a failed
load resets `isLoading` and leaves the models `null`, so the next call
retries. -/
theorem C9_amended :
    (∀ (M : Type) (os : List (Except Unit M)),
        runEmbedCalls (⟨none, false⟩ : EmbedModelState M) os ≤ 1)
    ∧ (∀ (C : Type) (calls : List (Bool × Except Unit C)),
        runGroqCalls (⟨none, false⟩ : GroqClientState C) calls ≤ 1)
    ∧ initializeModels (M := Unit) ⟨none, none, false⟩ (Except.error ()) (Except.error ())
        = (⟨none, none, false⟩, some false, 1) := by
  refine ⟨?_, ?_, by decide⟩
  · intro M os
    cases os with
    | nil => simp [runEmbedCalls]
    | cons o os =>
      rcases o with e | m
      · show (if (initializeModel ⟨none, false⟩ (Except.error e)).2.2 then 1 else 0)
            + runEmbedCalls (initializeModel ⟨none, false⟩ (Except.error e)).1 os ≤ 1
        have hstep : initializeModel (⟨none, false⟩ : EmbedModelState M) (Except.error e)
            = (⟨none, true⟩, none, true) := by
          unfold initializeModel
          simp
        rw [hstep]
        simp [runEmbed_attempted_zero os ⟨none, true⟩ rfl]
      · show (if (initializeModel ⟨none, false⟩ (Except.ok m)).2.2 then 1 else 0)
            + runEmbedCalls (initializeModel ⟨none, false⟩ (Except.ok m)).1 os ≤ 1
        have hstep : initializeModel (⟨none, false⟩ : EmbedModelState M) (Except.ok m)
            = (⟨some m, true⟩, some m, true) := by
          unfold initializeModel
          simp
        rw [hstep]
        simp [runEmbed_attempted_zero os ⟨some m, true⟩ rfl]
  · intro C calls
    cases calls with
    | nil => simp [runGroqCalls]
    | cons o os =>
      show (if (initializeGroqClient ⟨none, false⟩ o.1 o.2).2.2 then 1 else 0)
          + runGroqCalls (initializeGroqClient ⟨none, false⟩ o.1 o.2).1 os ≤ 1
      rcases o with ⟨key, outcome⟩
      rcases key with _ | _
      · have hstep : initializeGroqClient (⟨none, false⟩ : GroqClientState C) false outcome
            = (⟨none, true⟩, none, true) := by
          unfold initializeGroqClient
          simp
        rw [hstep]
        simp [runGroq_attempted_zero os ⟨none, true⟩ rfl]
      · rcases outcome with e | c
        · have hstep : initializeGroqClient (⟨none, false⟩ : GroqClientState C) true
              (Except.error e) = (⟨none, true⟩, none, true) := by
            unfold initializeGroqClient
            simp
          rw [hstep]
          simp [runGroq_attempted_zero os ⟨none, true⟩ rfl]
        · have hstep : initializeGroqClient (⟨none, false⟩ : GroqClientState C) true
              (Except.ok c) = (⟨some c, true⟩, some c, true) := by
            unfold initializeGroqClient
            simp
          rw [hstep]
          simp [runGroq_attempted_zero os ⟨some c, true⟩ rfl]

/-! ## Claim C2 -/

/-- C2 counterexample: "hello" is a one-line headerless note; the
claimed positional assignment (floor cut points 0, 0, 0 for one line)
puts line 0 in P, but the code puts every headerless line in S. -/
theorem C2_counterexample :
    headerTagOf "hello" = none
    ∧ (identifySoapSections "hello").S = "hello\n"
    ∧ (identifySoapSections "hello").P = "" := by
  decide

/-- C2 amended: a note with no section-header lines never reaches
positional inference: every line defaults into S, so `split` returns the
whole note (newline-terminated lines) in S with O, A, P empty.
Positional ratios can only run when every line is a header line. -/
theorem C2_amended (notes : String)
    (h : ∀ l ∈ jsSplitChar '\n' notes, headerTagOf l = none) :
    identifySoapSections notes
      = ⟨joinLines (jsSplitChar '\n' notes), "", "", ""⟩ := by
  have hne : jsSplitChar '\n' notes ≠ [] := by
    unfold jsSplitChar
    have := splitBy_ne_nil (fun c => c == '\n') notes.data
    intro hmap
    exact this (List.map_eq_nil_iff.mp hmap)
  obtain ⟨l0, hl0⟩ := List.exists_mem_of_ne_nil _ hne
  have hget := identify_eq_scan notes ⟨l0, hl0, h l0 hl0⟩
  have hassign : assignedLines none (jsSplitChar '\n' notes)
      = (jsSplitChar '\n' notes).map (fun l => (Tag.S, l)) := by
    have h2 := assignedLines_append_content (jsSplitChar '\n' notes) [] none h
    simpa [assignedLines] using h2
  apply soap_eq_of_get
  intro t
  rw [hget t, hassign]
  cases t with
  | S => rw [tagContent_map_self]; rfl
  | O => rw [tagContent_map_other Tag.O Tag.S (by decide)]; rfl
  | A => rw [tagContent_map_other Tag.A Tag.S (by decide)]; rfl
  | P => rw [tagContent_map_other Tag.P Tag.S (by decide)]; rfl

/-- C2 witness: concrete two-line headerless note, all in S. -/
theorem C2_amended_witness :
    identifySoapSections "hello\nworld" = ⟨"hello\nworld\n", "", "", ""⟩ := by
  rw [C2_amended "hello\nworld" (by decide)]
  decide

/-! ## Claim C10 -/

/-- C10 counterexample: in the note consisting only of the header line
"s:", the header line is NOT dropped from the output — all four buffers
are empty after the scan, the splitter falls through to positional
inference, and the header line lands in P. -/
theorem C10_counterexample :
    headerTagOf "s:" = some Tag.S ∧ (identifySoapSections "s:").P = "s:\n" := by
  decide

/-- C10 amended: provided at least one line is not a header line, every
header-matching line is consumed (appears in no section) and every other
line is appended, with a trailing newline, to exactly one section — that
of the most recent preceding header, S before any header.  A line merely
beginning with a header prefix, such as "Patient presents with chest
pain" matching `/^p:?/im`, is treated as a header and switches the
current section to P.  When every line is a header, the scan leaves all
buffers empty and the splitter falls through to positional inference
over all lines, headers included. -/
theorem C10_amended :
    (∀ notes, (∃ l, l ∈ jsSplitChar '\n' notes ∧ headerTagOf l = none) →
        ∀ t, (identifySoapSections notes).get t
          = tagContent t (assignedLines none (jsSplitChar '\n' notes)))
    ∧ headerTagOf "Patient presents with chest pain" = some Tag.P := by
  exact ⟨identify_eq_scan, by decide⟩

/-- C10 witness: the "Patient ..." line is dropped and switches the
section to P; the following non-header line lands in P. -/
theorem C10_amended_witness :
    (identifySoapSections "Patient presents with chest pain\nfeels fine").get Tag.P
      = "feels fine\n" := by
  rw [C10_amended.1 "Patient presents with chest pain\nfeels fine"
      ⟨"feels fine", by decide, by decide⟩ Tag.P]
  decide

/-! ## Claim C6 -/

theorem fallback_matched_iff (notes elem : String) (s : Option Tag) :
    ((fallbackAnalysis notes elem s).matchedText ≠ none) ↔
      (fallbackAnalysis notes elem s).hasContent = true := by
  unfold fallbackAnalysis
  cases hm : (findContextualMatch notes elem || containsKeywords notes elem) <;>
    simp [hm]

/-- C6: for every oracle outcome, note and element, `matchedText` is
non-null iff `hasContent` is true. -/
theorem C6_matched_iff (groq : GroqOracle) (notes elem : String) :
    ((analyzeMedicalText groq notes elem).matchedText ≠ none) ↔
      (analyzeMedicalText groq notes elem).hasContent = true := by
  rcases groq with _ | x
  · exact fallback_matched_iff _ _ _
  · rcases x with e | ans
    · exact fallback_matched_iff _ _ _
    · cases hy : strStartsWith ans "YES:" with
      | false =>
        have hval : analyzeMedicalText (some (Except.ok ans)) notes elem
            = ⟨false, none, relevantSectionOf elem⟩ := by
          unfold analyzeMedicalText analyzeBody
          simp [hy]
        rw [hval]
        simp
      | true =>
        have hval : analyzeMedicalText (some (Except.ok ans)) notes elem
            = ⟨true, some (jsTrim (strDrop 4 ans)), relevantSectionOf elem⟩ := by
          unfold analyzeMedicalText analyzeBody
          simp [hy]
        rw [hval]
        simp

/-! ## Claim C3 -/

/-- C3 counterexample: in the four-header note whose Objective content
line is "afebrile", that line itself matches the assessment header regex
`/^a:?/im`, so it is consumed as a header and the O section comes back
empty — not four non-empty sections matching the header boundaries. -/
theorem C3_counterexample :
    headerTagOf "afebrile" = some Tag.A
    ∧ (identifySoapSections
        "Subjective:\nx\nObjective:\nafebrile\nAssessment:\ny\nPlan:\nz").O = "" := by
  decide

/-- C3 amended: for a note of the four explicit header lines each
followed by non-empty content, PROVIDED no content line itself matches a
header pattern (and none contains a newline), `split` returns four
non-empty sections matching the header boundaries exactly. -/
theorem C3_amended (cS cO cA cP : List String)
    (hall : ∀ l ∈ cS ++ cO ++ cA ++ cP, headerTagOf l = none ∧ '\n' ∉ l.data)
    (hS : cS ≠ []) (hO : cO ≠ []) (hA : cA ≠ []) (hP : cP ≠ []) :
    identifySoapSections
        (joinWithNL ("Subjective:" :: (cS ++ "Objective:"
          :: (cO ++ "Assessment:" :: (cA ++ "Plan:" :: cP)))))
      = ⟨joinLines cS, joinLines cO, joinLines cA, joinLines cP⟩
    ∧ joinLines cS ≠ "" ∧ joinLines cO ≠ "" ∧ joinLines cA ≠ "" ∧ joinLines cP ≠ "" := by
  have hcS : ∀ l ∈ cS, headerTagOf l = none := fun l hl => (hall l (by simp [hl])).1
  have hcO : ∀ l ∈ cO, headerTagOf l = none := fun l hl => (hall l (by simp [hl])).1
  have hcA : ∀ l ∈ cA, headerTagOf l = none := fun l hl => (hall l (by simp [hl])).1
  have hcP : ∀ l ∈ cP, headerTagOf l = none := fun l hl => (hall l (by simp [hl])).1
  have hnl : ∀ l ∈ ("Subjective:" :: (cS ++ "Objective:"
      :: (cO ++ "Assessment:" :: (cA ++ "Plan:" :: cP)))), '\n' ∉ l.data := by
    intro l hl
    simp only [List.mem_cons, List.mem_append] at hl
    rcases hl with rfl | hl | rfl | hl | rfl | hl | rfl | hl
    · decide
    · exact (hall l (by simp [hl])).2
    · decide
    · exact (hall l (by simp [hl])).2
    · decide
    · exact (hall l (by simp [hl])).2
    · decide
    · exact (hall l (by simp [hl])).2
  have hsplit := jsSplitChar_joinWithNL
      ("Subjective:" :: (cS ++ "Objective:" :: (cO ++ "Assessment:" :: (cA ++ "Plan:" :: cP))))
      (by simp) hnl
  have hex : ∃ l, l ∈ jsSplitChar '\n' (joinWithNL ("Subjective:" :: (cS ++ "Objective:"
      :: (cO ++ "Assessment:" :: (cA ++ "Plan:" :: cP))))) ∧ headerTagOf l = none := by
    obtain ⟨c, hc⟩ := List.exists_mem_of_ne_nil cS hS
    refine ⟨c, ?_, hcS c hc⟩
    rw [hsplit]
    simp [hc]
  have hget := identify_eq_scan _ hex
  rw [hsplit] at hget
  have e1 : assignedLines none ("Subjective:" :: (cS ++ "Objective:"
      :: (cO ++ "Assessment:" :: (cA ++ "Plan:" :: cP))))
      = assignedLines (some Tag.S) (cS ++ "Objective:"
          :: (cO ++ "Assessment:" :: (cA ++ "Plan:" :: cP))) :=
    assignedLines_header _ _ _ _ (by decide)
  have e2 : assignedLines (some Tag.S) (cS ++ "Objective:"
      :: (cO ++ "Assessment:" :: (cA ++ "Plan:" :: cP)))
      = cS.map (fun l => (Tag.S, l)) ++ assignedLines (some Tag.S) ("Objective:"
          :: (cO ++ "Assessment:" :: (cA ++ "Plan:" :: cP))) := by
    have h2 := assignedLines_append_content cS
      ("Objective:" :: (cO ++ "Assessment:" :: (cA ++ "Plan:" :: cP))) (some Tag.S) hcS
    simpa using h2
  have e3 : assignedLines (some Tag.S) ("Objective:"
      :: (cO ++ "Assessment:" :: (cA ++ "Plan:" :: cP)))
      = assignedLines (some Tag.O) (cO ++ "Assessment:" :: (cA ++ "Plan:" :: cP)) :=
    assignedLines_header _ _ _ _ (by decide)
  have e4 : assignedLines (some Tag.O) (cO ++ "Assessment:" :: (cA ++ "Plan:" :: cP))
      = cO.map (fun l => (Tag.O, l))
          ++ assignedLines (some Tag.O) ("Assessment:" :: (cA ++ "Plan:" :: cP)) := by
    have h2 := assignedLines_append_content cO
      ("Assessment:" :: (cA ++ "Plan:" :: cP)) (some Tag.O) hcO
    simpa using h2
  have e5 : assignedLines (some Tag.O) ("Assessment:" :: (cA ++ "Plan:" :: cP))
      = assignedLines (some Tag.A) (cA ++ "Plan:" :: cP) :=
    assignedLines_header _ _ _ _ (by decide)
  have e6 : assignedLines (some Tag.A) (cA ++ "Plan:" :: cP)
      = cA.map (fun l => (Tag.A, l)) ++ assignedLines (some Tag.A) ("Plan:" :: cP) := by
    have h2 := assignedLines_append_content cA ("Plan:" :: cP) (some Tag.A) hcA
    simpa using h2
  have e7 : assignedLines (some Tag.A) ("Plan:" :: cP)
      = assignedLines (some Tag.P) cP :=
    assignedLines_header _ _ _ _ (by decide)
  have e8 : assignedLines (some Tag.P) cP = cP.map (fun l => (Tag.P, l)) := by
    have h2 := assignedLines_append_content cP [] (some Tag.P) hcP
    simpa [assignedLines] using h2
  have hassign : assignedLines none ("Subjective:" :: (cS ++ "Objective:"
      :: (cO ++ "Assessment:" :: (cA ++ "Plan:" :: cP))))
      = cS.map (fun l => (Tag.S, l)) ++ (cO.map (fun l => (Tag.O, l))
          ++ (cA.map (fun l => (Tag.A, l)) ++ cP.map (fun l => (Tag.P, l)))) := by
    rw [e1, e2, e3, e4, e5, e6, e7, e8]
  refine ⟨?_, joinLines_ne_empty cS hS, joinLines_ne_empty cO hO,
    joinLines_ne_empty cA hA, joinLines_ne_empty cP hP⟩
  apply soap_eq_of_get
  intro t
  rw [hget t, hassign, tagContent_append, tagContent_append, tagContent_append]
  cases t with
  | S =>
    rw [tagContent_map_self,
      tagContent_map_other Tag.S Tag.O (by decide),
      tagContent_map_other Tag.S Tag.A (by decide),
      tagContent_map_other Tag.S Tag.P (by decide)]
    show joinLines cS ++ ("" ++ ("" ++ "")) = joinLines cS
    rw [strEmptyAppend, strEmptyAppend, strAppendEmpty]
  | O =>
    rw [tagContent_map_self,
      tagContent_map_other Tag.O Tag.S (by decide),
      tagContent_map_other Tag.O Tag.A (by decide),
      tagContent_map_other Tag.O Tag.P (by decide)]
    show "" ++ (joinLines cO ++ ("" ++ "")) = joinLines cO
    rw [strEmptyAppend, strEmptyAppend, strAppendEmpty]
  | A =>
    rw [tagContent_map_self,
      tagContent_map_other Tag.A Tag.S (by decide),
      tagContent_map_other Tag.A Tag.O (by decide),
      tagContent_map_other Tag.A Tag.P (by decide)]
    show "" ++ ("" ++ (joinLines cA ++ "")) = joinLines cA
    rw [strEmptyAppend, strEmptyAppend, strAppendEmpty]
  | P =>
    rw [tagContent_map_self,
      tagContent_map_other Tag.P Tag.S (by decide),
      tagContent_map_other Tag.P Tag.O (by decide),
      tagContent_map_other Tag.P Tag.A (by decide)]
    show "" ++ ("" ++ ("" ++ joinLines cP)) = joinLines cP
    rw [strEmptyAppend, strEmptyAppend, strEmptyAppend]

/-- C3 witness: concrete four-header note with one benign content line
per section. -/
theorem C3_amended_witness :
    identifySoapSections
        "Subjective:\nfelt unwell\nObjective:\nno fever\nAssessment:\nviral illness\nPlan:\nrest today"
      = ⟨"felt unwell\n", "no fever\n", "viral illness\n", "rest today\n"⟩ := by
  have h := C3_amended ["felt unwell"] ["no fever"] ["viral illness"] ["rest today"]
    (by decide) (by decide) (by decide) (by decide) (by decide)
  have heq :
      ("Subjective:\nfelt unwell\nObjective:\nno fever\nAssessment:\nviral illness\nPlan:\nrest today" : String)
      = joinWithNL ("Subjective:" :: (["felt unwell"] ++ "Objective:"
          :: (["no fever"] ++ "Assessment:" :: (["viral illness"] ++ "Plan:" :: ["rest today"])))) := by
    decide
  rw [heq, h.1]
  decide
